import Mathlib

/-!
# AgentEd study-plan scheduler: shallow embedding and verification

This file embeds the study-planning core of the AgentEd repository
(PlanBuilder, ProgressTracker, PaceEstimator, Replanner, PlanStateStore)
together with the two client-side computations of
`src/frontend/components/study-session-content.tsx` that the claims touch
(`toggleObjective` and `progressPercent`).

The backend implementation of the planner is not part of the repository
snapshot: the repository contains only the FastAPI reference documentation
(`src/unnamed/part_009`, `src/unnamed/part_007`) describing its endpoints and
validation rules, plus the frontend consumers.  The planner components are
therefore modelled from the specification, except that the constraint
validation ranges are taken from the repository's own API reference, which
declares `target_days: 1-365` and `daily_hours: 0.5-12.0`.

Hours and fractions are rationals; timestamps are integers (days).
-/

deriving instance DecidableEq for Except

unseal Rat.add Rat.mul Rat.inv Rat.sub

namespace AgentEd

/-- Input shape of one chapter handed to `PlanBuilder.build` (spec section 4.1):
`{chapter_number, title, objectives, estimated_hours}`. -/
structure ChapterInput where
  chapter_number : Nat
  title : String
  objectives : List String
  estimated_hours : ℚ
deriving DecidableEq

/-- `ChapterSchedule` record of the data model (spec section 3). -/
structure ChapterState where
  chapter_number : Nat
  title : String
  objectives : List String
  estimated_hours : ℚ
  deadline : ℤ
  started_at : Option ℤ
  completed_at : Option ℤ
  is_complete : Bool
  completed_objectives : List String
deriving DecidableEq

/-- `StudyPlan` record of the data model (spec section 3). -/
structure StudyPlan where
  subject_id : String
  target_days : Nat
  daily_hours : ℚ
  estimated_total_hours : ℚ
  start_date : ℤ
  current_chapter : Nat
  overcommitted : Bool
  chapters : List ChapterState
deriving DecidableEq

/-- Error taxonomy of the planning core (spec section 7). -/
inductive PlanError where
  | InvalidConstraints
  | EmptyChapterList
  | ChapterNotFound
  | ObjectiveNotFound
  | PlanNotGenerated
deriving DecidableEq

/-- Constraint validation for plan generation.  The ranges are the ones the
repository itself declares for the generate endpoint: `target_days` 1-365 and
`daily_hours` 0.5-12.0 (src/unnamed/part_009 lines 443-448, and
src/unnamed/part_007 line 191 "Range validation (e.g., daily_hours: 0.5-12.0)"). -/
def validConstraints (target_days : Nat) (daily_hours : ℚ) : Bool :=
  decide (1 ≤ target_days ∧ target_days ≤ 365 ∧ (1 : ℚ)/2 ≤ daily_hours ∧ daily_hours ≤ 12)

/-- Total estimated hours of a chapter list. -/
def totalHours (chapters : List ChapterInput) : ℚ :=
  (chapters.map (·.estimated_hours)).sum

/-- Running sum of estimated hours up to and including chapter index `i`. -/
def cumulativeHours (chapters : List ChapterInput) (i : Nat) : ℚ :=
  ((chapters.take (i + 1)).map (·.estimated_hours)).sum

/-- Modelled from the spec: PlanBuilder's proportional allocation walk
(spec section 4.1).  `cum` is the running sum of hours before the current
chapter; chapter `i` receives deadline
`start + ceil(days * cumulative_hours_through_i / total)`. -/
def buildChapters (start : ℤ) (days total : ℚ) : ℚ → List ChapterInput → List ChapterState
  | _, [] => []
  | cum, c :: cs =>
    let cum' := cum + c.estimated_hours
    { chapter_number := c.chapter_number
      title := c.title
      objectives := c.objectives
      estimated_hours := c.estimated_hours
      deadline := start + Int.ceil (days * cum' / total)
      started_at := none
      completed_at := none
      is_complete := false
      completed_objectives := [] } :: buildChapters start days total cum' cs

/-- Modelled from the spec: `PlanBuilder.build` (spec section 4.1); the backend
implementation is absent from the repository snapshot.  Constraint ranges
follow the repository's API reference (see `validConstraints`); the
proportional deadline formula, the `EmptyChapterList` error and the
`overcommitted` flag follow the spec's words. -/
def buildPlan (sid : String) (chapters : List ChapterInput) (target_days : Nat)
    (daily_hours : ℚ) (start_date : ℤ) : Except PlanError StudyPlan :=
  if !validConstraints target_days daily_hours then
    .error .InvalidConstraints
  else if chapters.isEmpty then
    .error .EmptyChapterList
  else
    let total := totalHours chapters
    .ok
      { subject_id := sid
        target_days := target_days
        daily_hours := daily_hours
        estimated_total_hours := total
        start_date := start_date
        current_chapter := ((chapters.head?).map (·.chapter_number)).getD 0
        overcommitted := decide (total / daily_hours > (target_days : ℚ))
        chapters := buildChapters start_date (target_days : ℚ) total 0 chapters }

/-- Equality of two string lists viewed as sets (objectives are sets of
unique strings in the data model, spec section 3). -/
def setsEq (xs ys : List String) : Bool :=
  xs.all (fun x => ys.contains x) && ys.all (fun y => xs.contains y)

/-- Result of the ProgressTracker operation (spec section 4.2):
`{chapter_completed: bool, was_new: bool}`. -/
structure CompleteResult where
  chapter_completed : Bool
  was_new : Bool
deriving DecidableEq

/-- The chapter_number that follows `n` in the plan's chapter order, or `n`
itself when `n` is the last chapter (spec section 4.2: advance
`current_chapter` to the next chapter_number in order, or leave unchanged). -/
def nextChapterNumber (chs : List ChapterState) (n : Nat) : Nat :=
  match chs.dropWhile (fun c => c.chapter_number != n) with
  | _ :: next :: _ => next.chapter_number
  | _ => n

/-- Modelled from the spec: the in-place mutation `completeObjective` performs
on the addressed chapter (spec section 4.2).  The chapter store is keyed by
`chapter_number`, so the update is applied pointwise to the chapter(s) with
that key; a chapter for which the objective does not match, or is already
completed, is left untouched (no-op branch). -/
def updateChapter (c : ChapterState) (obj : String) (now : ℤ) : ChapterState :=
  if !(c.objectives.contains obj) || c.completed_objectives.contains obj then c
  else
    let completed' := c.completed_objectives ++ [obj]
    let nowComplete := c.is_complete || setsEq c.objectives completed'
    { c with
      completed_objectives := completed'
      started_at :=
        if c.completed_objectives.isEmpty && c.started_at.isNone then some now
        else c.started_at
      is_complete := nowComplete
      completed_at := if nowComplete && c.completed_at.isNone then some now else c.completed_at }

/-- Modelled from the spec: `ProgressTracker.completeObjective`
(spec section 4.2).  Checks `ChapterNotFound`, then `ObjectiveNotFound`, then
the idempotent no-op branch; otherwise adds the objective, detects chapter
completion, and advances `current_chapter` when the completed chapter is the
current one. -/
def completeObjectivePlan (p : StudyPlan) (chNum : Nat) (obj : String) (now : ℤ) :
    Except PlanError (StudyPlan × CompleteResult) :=
  match p.chapters.find? (fun c => c.chapter_number == chNum) with
  | none => .error .ChapterNotFound
  | some c =>
    if !(c.objectives.contains obj) then .error .ObjectiveNotFound
    else if c.completed_objectives.contains obj then .ok (p, ⟨c.is_complete, false⟩)
    else
      let c' := updateChapter c obj now
      let chapters' := p.chapters.map
        (fun d => if d.chapter_number == chNum then updateChapter d obj now else d)
      let current' :=
        if c'.is_complete && (p.current_chapter == chNum) then
          nextChapterNumber p.chapters chNum
        else p.current_chapter
      .ok ({ p with chapters := chapters', current_chapter := current' }, ⟨c'.is_complete, true⟩)

/-- Total number of objectives across the plan's chapters. -/
def totalObjectives (p : StudyPlan) : Nat :=
  (p.chapters.map (·.objectives.length)).sum

/-- Total number of completed objectives across the plan's chapters. -/
def completedObjectivesTotal (p : StudyPlan) : Nat :=
  (p.chapters.map (·.completed_objectives.length)).sum

/-- Invariant 5 of the data model: overall progress percent, recomputed on
demand.  Rational division by zero yields 0, so an empty plan reads 0%. -/
def overallProgressPercent (p : StudyPlan) : ℚ :=
  (completedObjectivesTotal p : ℚ) / (totalObjectives p : ℚ) * 100

/-- Pace classification (spec section 4.3). -/
inductive StudyPace where
  | ahead
  | on_track
  | behind
deriving DecidableEq

/-- Modelled from the spec: `PaceEstimator.estimatePace` (spec section 4.3).
Expected fractional progress is elapsed time over `target_days` clamped to
`[0,1]`; actual is `overall_progress_percent / 100`; the classification uses
the 5-percentage-point threshold; degenerate plan data falls back to
`on_track`. -/
def estimatePace (p : StudyPlan) (now : ℤ) : StudyPace :=
  if p.target_days == 0 then .on_track
  else
    let expected : ℚ := min 1 (max 0 (((now - p.start_date : ℤ) : ℚ) / (p.target_days : ℚ)))
    let actual : ℚ := overallProgressPercent p / 100
    if actual - expected > 1/20 then .ahead
    else if actual - expected < -(1/20) then .behind
    else .on_track

/-- Modelled from the spec: the Replanner's allocation walk (spec section 4.4).
Completed chapters are passed through untouched (deadlines frozen); each
incomplete chapter receives `anchor + ceil(days * cum' / remHours)` where
`cum'` is the running sum of estimated hours over the incomplete chapters seen
so far. -/
def replanWalk (anchor : ℤ) (days remHours : ℚ) : ℚ → List ChapterState → List ChapterState
  | _, [] => []
  | cum, c :: cs =>
    if c.is_complete then c :: replanWalk anchor days remHours cum cs
    else
      let cum' := cum + c.estimated_hours
      { c with deadline := anchor + Int.ceil (days * cum' / remHours) } ::
        replanWalk anchor days remHours cum' cs

/-- Modelled from the spec: `Replanner.replan` (spec section 4.4).  Partitions
chapters by `is_complete`; an empty remaining set short-circuits to
`changed = false`; otherwise the proportional allocation is re-run over the
remaining chapters and `remaining_days = max 1 (target_days - elapsed_days)`,
anchored at the latest of `now` and every done chapter's deadline, so the
first remaining deadline is never earlier than `now` nor earlier than the last
done chapter's deadline.  Returns `changed = false` when the recomputed
deadlines equal the existing ones. -/
def replanPlan (p : StudyPlan) (now : ℤ) : StudyPlan × Bool :=
  let remaining := p.chapters.filter (fun c => !c.is_complete)
  if remaining.isEmpty then (p, false)
  else
    let done := p.chapters.filter (fun c => c.is_complete)
    let remainingDays : ℤ := max 1 ((p.target_days : ℤ) - (now - p.start_date))
    let remainingHours : ℚ := (remaining.map (·.estimated_hours)).sum
    let anchor : ℤ := (done.map (·.deadline)).foldl max now
    let chapters' := replanWalk anchor (remainingDays : ℚ) remainingHours 0 p.chapters
    let changed : Bool :=
      !((chapters'.map (·.deadline) : List ℤ) == p.chapters.map (·.deadline))
    ({ p with chapters := chapters' }, changed)

/-- Consolidated result of the exposed `completeObjective` operation
(spec sections 2 and 6). -/
structure FullResult where
  chapter_completed : Bool
  replanned : Bool
  was_new : Bool
deriving DecidableEq

/-- Modelled from the spec: the consolidated `completeObjective` control flow
(spec section 2): ProgressTracker, then PaceEstimator, then the Replanner when
a chapter just completed and the pace is `behind` (spec section 4.4 trigger). -/
def completeObjectiveFull (p : StudyPlan) (chNum : Nat) (obj : String) (now : ℤ) :
    Except PlanError (StudyPlan × FullResult) :=
  match completeObjectivePlan p chNum obj now with
  | .error e => .error e
  | .ok (p', r) =>
    if r.was_new && r.chapter_completed && (estimatePace p' now == .behind) then
      let (p'', changed) := replanPlan p' now
      .ok (p'', ⟨r.chapter_completed, changed, r.was_new⟩)
    else
      .ok (p', ⟨r.chapter_completed, false, r.was_new⟩)

/-- `ChapterSnapshot` returned by the pure read `getChapterProgress`
(spec section 6). -/
structure ChapterProgress where
  completed_objectives : List String
  total_objectives : Nat
  is_complete : Bool
  deadline : ℤ
  progress_percent : ℚ
deriving DecidableEq

/-- Modelled from the spec: `getChapterProgress`, a pure read from the stored
plan (spec sections 2 and 6). -/
def getChapterProgress (p : StudyPlan) (chNum : Nat) : Option ChapterProgress :=
  (p.chapters.find? (fun c => c.chapter_number == chNum)).map fun c =>
    { completed_objectives := c.completed_objectives
      total_objectives := c.objectives.length
      is_complete := c.is_complete
      deadline := c.deadline
      progress_percent := (c.completed_objectives.length : ℚ) / (c.objectives.length : ℚ) * 100 }

/-- The per-subject plan store (spec section 4.5), one `StudyPlan` per
subject id. -/
abbrev PlanStore := List (String × StudyPlan)

/-- Load the plan stored for a subject, if any. -/
def storeLoad (s : PlanStore) (sid : String) : Option StudyPlan :=
  (s.find? (fun e => e.1 == sid)).map (·.2)

/-- Modelled from the spec: the store-wrapped `completeObjective`
(spec sections 4.5, 7, scenario D): load, mutate, save; on any error nothing
is saved and the stored plan is left unchanged. -/
def storeCompleteObjective (s : PlanStore) (sid : String) (chNum : Nat) (obj : String)
    (now : ℤ) : PlanStore × Except PlanError FullResult :=
  match storeLoad s sid with
  | none => (s, .error .PlanNotGenerated)
  | some p =>
    match completeObjectiveFull p chNum obj now with
    | .error e => (s, .error e)
    | .ok (p', r) => (s.map (fun e => if e.1 == sid then (sid, p') else e), .ok r)

/-- One mutating operation on a stored plan: an exposed `completeObjective`
call or an explicit `replan` request. -/
inductive PlanOp where
  | complete (chNum : Nat) (obj : String) (now : ℤ)
  | replan (now : ℤ)

/-- Apply one operation; a failed `completeObjective` leaves the plan
unchanged (nothing is saved on the error path, spec section 4.5). -/
def applyOp (p : StudyPlan) (op : PlanOp) : StudyPlan :=
  match op with
  | .complete ch obj t =>
    match completeObjectiveFull p ch obj t with
    | .ok (p', _) => p'
    | .error _ => p
  | .replan t => (replanPlan p t).1

/-- Apply a sequence of operations in order. -/
def applyOps (p : StudyPlan) (ops : List PlanOp) : StudyPlan :=
  ops.foldl applyOp p

/-- Plan states reachable from a successful `generate` by any sequence of
`completeObjective` and `replan` operations (spec sections 2 and 3). -/
inductive Reach : StudyPlan → Prop where
  | generate (sid : String) (chapters : List ChapterInput) (td : Nat) (dh : ℚ)
      (start : ℤ) (p : StudyPlan) :
      buildPlan sid chapters td dh start = .ok p → Reach p
  | step (p : StudyPlan) (op : PlanOp) : Reach p → Reach (applyOp p op)

/-- Invariants 1 and 2 of the data model for one chapter: completed
objectives are a subset of the objectives, and completion holds exactly when
the objective set is non-empty and exhausted. -/
def chapterWF (c : ChapterState) : Prop :=
  (∀ o ∈ c.completed_objectives, o ∈ c.objectives) ∧
  (c.is_complete = true ↔
    (c.objectives ≠ [] ∧ ∀ o ∈ c.objectives, o ∈ c.completed_objectives))

/-- Per-chapter frame relation for the Replanner (spec section 4.4):
everything except the deadline is preserved, and a completed chapter also
keeps its deadline. -/
def chapterFrame (c c' : ChapterState) : Prop :=
  c'.chapter_number = c.chapter_number ∧ c'.title = c.title ∧
  c'.objectives = c.objectives ∧ c'.estimated_hours = c.estimated_hours ∧
  c'.completed_objectives = c.completed_objectives ∧ c'.is_complete = c.is_complete ∧
  c'.started_at = c.started_at ∧ c'.completed_at = c.completed_at ∧
  (c.is_complete = true → c'.deadline = c.deadline)

/-- Invariant 4 of the data model: deadlines are non-decreasing along the
chapter order. -/
def deadlinesMono (p : StudyPlan) : Prop :=
  List.Chain' (fun a b => a ≤ b) (p.chapters.map (·.deadline))

/-- All chapters carry positive estimated hours (section 4.1 input contract). -/
def hoursPos (p : StudyPlan) : Prop :=
  ∀ c ∈ p.chapters, 0 < c.estimated_hours

/-- The completed chapters form a prefix of the chapter order. -/
def completedLeading (p : StudyPlan) : Prop :=
  ∃ ds rs, p.chapters = ds ++ rs ∧ (∀ c ∈ ds, c.is_complete = true) ∧
    ∀ c ∈ rs, c.is_complete = false

/-- Plan states reachable when replanning only ever happens while the
completed chapters form a prefix of the chapter order (in particular, when
chapters are completed in order), and the generate input obeys the
section 4.1 contract of positive per-chapter hours. -/
inductive ReachOrdered : StudyPlan → Prop where
  | generate (sid : String) (chapters : List ChapterInput) (td : Nat) (dh : ℚ)
      (start : ℤ) (p : StudyPlan) :
      (∀ c ∈ chapters, 0 < c.estimated_hours) →
      buildPlan sid chapters td dh start = .ok p → ReachOrdered p
  | complete (p : StudyPlan) (ch : Nat) (obj : String) (t : ℤ) (p' : StudyPlan)
      (r : CompleteResult) : ReachOrdered p →
      completeObjectivePlan p ch obj t = .ok (p', r) → ReachOrdered p'
  | replan (p : StudyPlan) (t : ℤ) : ReachOrdered p → completedLeading p →
      ReachOrdered (replanPlan p t).1

/-! ## Client-side embedding (study-session-content.tsx) -/

/-- The client's response type for objective completion, mirroring the
`ObjectiveCompleteResponse` interface
(src/frontend/components/study-session-content.tsx lines 107-111). -/
structure ObjectiveCompleteResponseModel where
  chapter_completed : Bool
  replanned : Bool
  message : String
deriving DecidableEq

/-- The pieces of study-session client state that `toggleObjective` touches:
`completedObjectives`, `isChapterComplete`, `isSavingProgress`
(study-session-content.tsx lines 151-153). -/
structure SessionClientState where
  completedObjectives : List String
  isChapterComplete : Bool
  isSavingProgress : Bool
deriving DecidableEq

/-- Embedding of `toggleObjective` (study-session-content.tsx lines 359-403).
The POST to `/api/v1/planner/objective/complete` is abstracted by `response`,
the value the request would produce (an `Except.error` models a thrown
request).  Returns the new client state and whether a network request was
issued.  An already-completed objective returns immediately (the guard at
lines 360-363, before `setIsSavingProgress(true)`); otherwise the objective
is added to the set on success, `isChapterComplete` is raised when the server
reports the chapter completed, and the `finally` clause resets
`isSavingProgress` to `false`. -/
def toggleObjective (s : SessionClientState) (objective : String)
    (response : Except String ObjectiveCompleteResponseModel) :
    SessionClientState × Bool :=
  if s.completedObjectives.contains objective then (s, false)
  else
    match response with
    | .ok r =>
      ({ completedObjectives := s.completedObjectives ++ [objective],
         isChapterComplete := s.isChapterComplete || r.chapter_completed,
         isSavingProgress := false }, true)
    | .error _ => ({ s with isSavingProgress := false }, true)

/-- A sequence of `toggleObjective` calls, each with the response its request
would produce. -/
def toggleObjectiveSeq (s : SessionClientState)
    (calls : List (String × Except String ObjectiveCompleteResponseModel)) :
    SessionClientState :=
  calls.foldl (fun st c => (toggleObjective st c.1 c.2).1) s

/-- JavaScript number values as they arise in `progressPercent`: finite
values kept exact as rationals, plus `NaN` and the signed infinities. -/
inductive JsNumber where
  | nan
  | posInf
  | negInf
  | num (q : ℚ)
deriving DecidableEq

/-- JavaScript division on `JsNumber`: `0/0` is `NaN`, `a/0` for `a ≠ 0` is a
signed infinity, `NaN` propagates, infinity over infinity is `NaN`, and a
finite value over an infinity is `0`. -/
def jsDiv : JsNumber → JsNumber → JsNumber
  | .num a, .num b =>
    if b = 0 then (if a = 0 then .nan else if 0 < a then .posInf else .negInf)
    else .num (a / b)
  | .nan, _ => .nan
  | _, .nan => .nan
  | .posInf, .posInf => .nan
  | .posInf, .negInf => .nan
  | .negInf, .posInf => .nan
  | .negInf, .negInf => .nan
  | .posInf, .num b => if b < 0 then .negInf else .posInf
  | .negInf, .num b => if b < 0 then .posInf else .negInf
  | .num _, .posInf => .num 0
  | .num _, .negInf => .num 0

/-- JavaScript multiplication on `JsNumber`: `NaN` propagates and
`0 * Infinity` is `NaN`. -/
def jsMul : JsNumber → JsNumber → JsNumber
  | .num a, .num b => .num (a * b)
  | .nan, _ => .nan
  | _, .nan => .nan
  | .posInf, .posInf => .posInf
  | .posInf, .negInf => .negInf
  | .negInf, .posInf => .negInf
  | .negInf, .negInf => .posInf
  | .posInf, .num b => if b = 0 then .nan else if 0 < b then .posInf else .negInf
  | .num a, .posInf => if a = 0 then .nan else if 0 < a then .posInf else .negInf
  | .negInf, .num b => if b = 0 then .nan else if 0 < b then .negInf else .posInf
  | .num a, .negInf => if a = 0 then .nan else if 0 < a then .negInf else .posInf

/-- The chapter record the study-session client renders
(study-session-content.tsx lines 83-88). -/
structure ClientChapter where
  chapter_number : Nat
  title : String
  content : String
  learning_objectives : List String
deriving DecidableEq

/-- Embedding of the `progressPercent` computation (study-session-content.tsx
lines 481-483): `chapter ? (completedObjectives.size /
chapter.learning_objectives.length) * 100 : 0`, with JavaScript number
semantics for the division and no guard for an empty objective list. -/
def progressPercent (chapter : Option ClientChapter) (completedObjectivesSize : Nat) :
    JsNumber :=
  match chapter with
  | some c =>
    jsMul (jsDiv (.num completedObjectivesSize) (.num c.learning_objectives.length))
      (.num 100)
  | none => .num 0

/-- Field names of the `ObjectiveCompleteResponse` interface the study-session
client declares for the result of `POST /api/v1/planner/objective/complete`
(src/frontend/components/study-session-content.tsx lines 107-111). -/
def objectiveCompleteResponseFields : List String :=
  ["chapter_completed", "replanned", "message"]

/-- Keys of the `data` object in the documented response of the
`Mark Objective Complete` endpoint (src/unnamed/part_009 lines 546-559). -/
def markObjectiveCompleteDataKeys : List String :=
  ["subject_id", "chapter_number", "objective", "completed_at", "chapter_progress"]

/-! ## Concrete instances used by witnesses and counterexamples -/

/-- Concrete two-chapter input of spec scenario A: estimated hours 4 and 12. -/
def scenarioAChapters : List ChapterInput :=
  [{ chapter_number := 1, title := "c1", objectives := ["a"], estimated_hours := 4 },
   { chapter_number := 2, title := "c2", objectives := ["b"], estimated_hours := 12 }]

/-- The plan scenario A's build (target 20 days, 2 daily hours) produces:
deadlines on day 5 and day 20. -/
def scenarioAPlan : StudyPlan :=
  { subject_id := "s", target_days := 20, daily_hours := 2, estimated_total_hours := 16,
    start_date := 0, current_chapter := 1, overcommitted := false,
    chapters :=
      [{ chapter_number := 1, title := "c1", objectives := ["a"], estimated_hours := 4,
         deadline := 5, started_at := none, completed_at := none, is_complete := false,
         completed_objectives := [] },
       { chapter_number := 2, title := "c2", objectives := ["b"], estimated_hours := 12,
         deadline := 20, started_at := none, completed_at := none, is_complete := false,
         completed_objectives := [] }] }

/-- A two-chapter plan (one objective each, one hour each, ten target days)
as built by `buildPlan "s" twoChapterInput 10 2 0`: deadlines on day 5 and
day 10. -/
def twoChapterInput : List ChapterInput :=
  [{ chapter_number := 1, title := "t1", objectives := ["a"], estimated_hours := 1 },
   { chapter_number := 2, title := "t2", objectives := ["b"], estimated_hours := 1 }]

/-- The plan `buildPlan "s" twoChapterInput 10 2 0` produces. -/
def twoChapterPlan : StudyPlan :=
  { subject_id := "s", target_days := 10, daily_hours := 2, estimated_total_hours := 2,
    start_date := 0, current_chapter := 1, overcommitted := false,
    chapters :=
      [{ chapter_number := 1, title := "t1", objectives := ["a"], estimated_hours := 1,
         deadline := 5, started_at := none, completed_at := none, is_complete := false,
         completed_objectives := [] },
       { chapter_number := 2, title := "t2", objectives := ["b"], estimated_hours := 1,
         deadline := 10, started_at := none, completed_at := none, is_complete := false,
         completed_objectives := [] }] }

/-- The plan after completing objective "a" of chapter 1 of `twoChapterPlan`
at time 1: chapter 1 becomes complete and `current_chapter` advances to 2. -/
def twoChapterPlanDone1 : StudyPlan :=
  { subject_id := "s", target_days := 10, daily_hours := 2, estimated_total_hours := 2,
    start_date := 0, current_chapter := 2, overcommitted := false,
    chapters :=
      [{ chapter_number := 1, title := "t1", objectives := ["a"], estimated_hours := 1,
         deadline := 5, started_at := some 1, completed_at := some 1, is_complete := true,
         completed_objectives := ["a"] },
       { chapter_number := 2, title := "t2", objectives := ["b"], estimated_hours := 1,
         deadline := 10, started_at := none, completed_at := none, is_complete := false,
         completed_objectives := [] }] }

/-! ## Basic lemmas about the builder -/

theorem buildChapters_length (start : ℤ) (days total : ℚ) :
    ∀ (cum : ℚ) (chs : List ChapterInput),
      (buildChapters start days total cum chs).length = chs.length := by
  intro cum chs
  induction chs generalizing cum with
  | nil => rfl
  | cons c cs ih => simp [buildChapters, ih]

theorem buildChapters_get (start : ℤ) (days total : ℚ) :
    ∀ (chs : List ChapterInput) (cum : ℚ) (i : Nat)
      (hi : i < (buildChapters start days total cum chs).length),
      ((buildChapters start days total cum chs).get ⟨i, hi⟩).deadline
        = start + Int.ceil (days * (cum + ((chs.take (i + 1)).map (·.estimated_hours)).sum) / total) := by
  intro chs
  induction chs with
  | nil => intro cum i hi; simp [buildChapters] at hi
  | cons c cs ih =>
    intro cum i hi
    match i with
    | 0 => simp [buildChapters]
    | Nat.succ j =>
      have hj : j < (buildChapters start days total (cum + c.estimated_hours) cs).length := by
        simpa [buildChapters] using hi
      have := ih (cum + c.estimated_hours) j hj
      simp only [buildChapters, List.get_cons_succ, List.take_succ_cons, List.map_cons,
        List.sum_cons] at this ⊢
      rw [this]
      ring_nf

theorem buildPlan_ok_chapters {sid : String} {chs : List ChapterInput} {td : Nat} {dh : ℚ}
    {st : ℤ} {p : StudyPlan} (h : buildPlan sid chs td dh st = .ok p) :
    p.chapters = buildChapters st (td : ℚ) (totalHours chs) 0 chs ∧ chs ≠ [] ∧
      p.target_days = td ∧ p.start_date = st := by
  unfold buildPlan at h
  by_cases hv : validConstraints td dh
  · by_cases he : chs.isEmpty
    · simp [hv, he] at h
    · simp only [hv, Bool.not_true, he, Bool.false_eq_true, if_false, if_neg] at h
      cases h
      refine ⟨rfl, ?_, rfl, rfl⟩
      intro hnil
      subst hnil
      simp at he
  · simp [hv] at h

/-- Total hours are positive for a non-empty chapter list with positive
per-chapter hours. -/
theorem totalHours_pos {chs : List ChapterInput} (hne : chs ≠ [])
    (hpos : ∀ c ∈ chs, 0 < c.estimated_hours) : 0 < totalHours chs := by
  unfold totalHours
  apply List.sum_pos
  · intro h hh
    simp only [List.mem_map] at hh
    obtain ⟨c, hc, rfl⟩ := hh
    exact hpos c hc
  · simpa using hne

/-! ## C1: deadlines of a freshly built plan follow the proportional formula -/

/-- C1: for every input on which `PlanBuilder.build` succeeds and whose
chapters carry positive estimated hours (the section 4.1 input contract),
the deadline of chapter `i` is `start_date + ceil(target_days *
cumulative_hours_through_i / estimated_total_hours)` days, and the last
chapter's deadline is exactly `start_date + target_days`. -/
theorem c1_build_deadlines_proportional (sid : String) (chs : List ChapterInput)
    (td : Nat) (dh : ℚ) (st : ℤ) (p : StudyPlan)
    (hpos : ∀ c ∈ chs, 0 < c.estimated_hours)
    (hok : buildPlan sid chs td dh st = .ok p) :
    (∀ i (hi : i < p.chapters.length),
        (p.chapters.get ⟨i, hi⟩).deadline
          = st + Int.ceil ((td : ℚ) * cumulativeHours chs i / totalHours chs)) ∧
      ∀ hne : p.chapters ≠ [], (p.chapters.getLast hne).deadline = st + td := by
  obtain ⟨hchs, hne, _, _⟩ := buildPlan_ok_chapters hok
  have hget : ∀ i (hi : i < p.chapters.length),
      (p.chapters.get ⟨i, hi⟩).deadline
        = st + Int.ceil ((td : ℚ) * cumulativeHours chs i / totalHours chs) := by
    intro i hi
    have hi' : i < (buildChapters st (td : ℚ) (totalHours chs) 0 chs).length := by
      rw [← hchs]; exact hi
    have hcast := List.get_of_eq hchs ⟨i, hi⟩
    rw [hcast]
    have := buildChapters_get st (td : ℚ) (totalHours chs) chs 0 i hi'
    simpa [cumulativeHours] using this
  refine ⟨hget, ?_⟩
  intro hnonempty
  have hlen : p.chapters.length - 1 < p.chapters.length := by
    have : p.chapters.length ≠ 0 := by
      simpa [List.length_eq_zero] using hnonempty
    omega
  rw [List.getLast_eq_get]
  rw [hget (p.chapters.length - 1) hlen]
  have hlen' : p.chapters.length = chs.length := by
    rw [hchs, buildChapters_length]
  have htake : chs.take (p.chapters.length - 1 + 1) = chs := by
    apply List.take_of_length_le
    omega
  have hcum : cumulativeHours chs (p.chapters.length - 1) = totalHours chs := by
    unfold cumulativeHours totalHours
    rw [htake]
  rw [hcum]
  have htot : totalHours chs ≠ 0 := ne_of_gt (totalHours_pos hne hpos)
  rw [mul_div_assoc, div_self htot, mul_one, Int.ceil_natCast]

/-- C1 witness: spec scenario A.  With estimated hours `[4, 12]` and
`target_days = 20` the build succeeds, both chapter deadlines satisfy the
proportional formula, and they land on day `ceil(20*4/16) = 5` and day 20. -/
theorem c1_build_deadlines_proportional_witness :
    buildPlan "s" scenarioAChapters 20 2 0 = .ok scenarioAPlan ∧
    (scenarioAPlan.chapters.get ⟨0, by decide⟩).deadline
      = 0 + Int.ceil ((20 : ℚ) * cumulativeHours scenarioAChapters 0 / totalHours scenarioAChapters) ∧
    (scenarioAPlan.chapters.get ⟨1, by decide⟩).deadline
      = 0 + Int.ceil ((20 : ℚ) * cumulativeHours scenarioAChapters 1 / totalHours scenarioAChapters) ∧
    scenarioAPlan.chapters.map (·.deadline) = [5, 20] :=
  have hok : buildPlan "s" scenarioAChapters 20 2 0 = .ok scenarioAPlan := by decide
  have hpos : ∀ c ∈ scenarioAChapters, 0 < c.estimated_hours := by decide
  ⟨hok,
    (c1_build_deadlines_proportional "s" scenarioAChapters 20 2 0 scenarioAPlan hpos hok).1
      0 (by decide),
    (c1_build_deadlines_proportional "s" scenarioAChapters 20 2 0 scenarioAPlan hpos hok).1
      1 (by decide),
    by decide⟩

/-! ## C6: error behavior of the builder -/

/-- C6 (amended): `PlanBuilder.build` fails with `InvalidConstraints` exactly
when the repository-declared ranges are violated (`target_days` outside
`[1,365]` or `daily_hours` outside `[0.5,12]`), with `EmptyChapterList`
exactly when the constraints are valid and the chapter list is empty, and an
infeasible-but-valid input (`estimated_total_hours / daily_hours >
target_days`) still builds successfully, flagged `overcommitted`. -/
theorem c6_build_error_partition (sid : String) (chs : List ChapterInput) (td : Nat)
    (dh : ℚ) (st : ℤ) :
    (buildPlan sid chs td dh st = .error .InvalidConstraints
        ↔ validConstraints td dh = false) ∧
    (buildPlan sid chs td dh st = .error .EmptyChapterList
        ↔ (validConstraints td dh = true ∧ chs = [])) ∧
    (validConstraints td dh = true → chs ≠ [] → totalHours chs / dh > (td : ℚ) →
      (buildPlan sid chs td dh st).map (·.overcommitted) = .ok true) := by
  unfold buildPlan
  by_cases hv : validConstraints td dh
  · by_cases he : chs.isEmpty
    · have hnil : chs = [] := by simpa [List.isEmpty_iff] using he
      subst hnil
      simp [hv]
    · have hne : chs ≠ [] := by simpa [List.isEmpty_iff] using he
      simp only [hv, Bool.not_true, Bool.false_eq_true, if_false, he, if_neg]
      refine ⟨by simp, by simp [hne], ?_⟩
      intro _ _ hgt
      simp [Except.map, hgt]
  · have hv' : validConstraints td dh = false := by simpa using hv
    simp [hv']

/-- C6 counterexample to the claim as stated: `daily_hours = 20` lies in the
claimed valid range `(0, 24]` and `target_days = 30` in `[1,365]` with a
non-empty chapter list, yet the build fails with `InvalidConstraints`,
because the repository's declared range for `daily_hours` is `[0.5, 12]`. -/
theorem c6_build_error_partition_counterexample :
    buildPlan "s" scenarioAChapters 30 20 0 = .error .InvalidConstraints ∧
    (0 : ℚ) < 20 ∧ (20 : ℚ) ≤ 24 ∧ 1 ≤ (30 : Nat) ∧ (30 : Nat) ≤ 365 ∧
    scenarioAChapters ≠ [] := by
  refine ⟨by decide, by decide, by decide, by decide, by decide, by decide⟩

/-- C6 witness: all three amended conjuncts at concrete inputs.
An invalid `daily_hours = 20` is rejected, an empty chapter list with valid
constraints is rejected as `EmptyChapterList`, and a valid but overcommitted
input (16 hours in 10 days at 1 hour/day) builds with `overcommitted = true`. -/
theorem c6_build_error_partition_witness :
    buildPlan "s2" scenarioAChapters 30 20 1 = .error .InvalidConstraints ∧
    buildPlan "s2" ([] : List ChapterInput) 30 2 1 = .error .EmptyChapterList ∧
    (buildPlan "s2" scenarioAChapters 10 1 1).map (·.overcommitted) = .ok true :=
  ⟨(c6_build_error_partition "s2" scenarioAChapters 30 20 1).1.mpr (by decide),
    (c6_build_error_partition "s2" ([] : List ChapterInput) 30 2 1).2.1.mpr
      ⟨by decide, rfl⟩,
    (c6_build_error_partition "s2" scenarioAChapters 10 1 1).2.2 (by decide) (by decide)
      (by decide)⟩

/-! ## Lemmas about the progress tracker -/

theorem updateChapter_frame (c : ChapterState) (obj : String) (now : ℤ) :
    (updateChapter c obj now).chapter_number = c.chapter_number ∧
    (updateChapter c obj now).title = c.title ∧
    (updateChapter c obj now).objectives = c.objectives ∧
    (updateChapter c obj now).estimated_hours = c.estimated_hours ∧
    (updateChapter c obj now).deadline = c.deadline := by
  unfold updateChapter
  split <;> simp

theorem updateChapter_completed_cases (c : ChapterState) (obj : String) (now : ℤ) :
    (updateChapter c obj now).completed_objectives = c.completed_objectives ∨
    (updateChapter c obj now).completed_objectives = c.completed_objectives ++ [obj] := by
  unfold updateChapter
  split
  · exact Or.inl rfl
  · exact Or.inr rfl

theorem updateChapter_nochange (c : ChapterState) (obj : String) (now : ℤ)
    (h : c.objectives.contains obj = false ∨ c.completed_objectives.contains obj = true) :
    updateChapter c obj now = c := by
  unfold updateChapter
  rcases h with h | h
  · have h' : obj ∉ c.objectives := by simpa using h
    simp [h']
  · have h' : obj ∈ c.completed_objectives := by simpa using h
    simp [h']

theorem updateChapter_add (c : ChapterState) (obj : String) (now : ℤ)
    (hobj : c.objectives.contains obj = true)
    (hnew : c.completed_objectives.contains obj = false) :
    (updateChapter c obj now).completed_objectives = c.completed_objectives ++ [obj] := by
  have h1 : obj ∈ c.objectives := by simpa using hobj
  have h2 : obj ∉ c.completed_objectives := by simpa using hnew
  unfold updateChapter
  simp [h1, h2]

/-- The full record produced by `updateChapter` in the add branch. -/
theorem updateChapter_addFull (c : ChapterState) (obj : String) (now : ℤ)
    (hobj : c.objectives.contains obj = true)
    (hnew : c.completed_objectives.contains obj = false) :
    updateChapter c obj now
      = { c with
          completed_objectives := c.completed_objectives ++ [obj],
          started_at :=
            if c.completed_objectives.isEmpty && c.started_at.isNone then some now
            else c.started_at,
          is_complete :=
            c.is_complete || setsEq c.objectives (c.completed_objectives ++ [obj]),
          completed_at :=
            if (c.is_complete || setsEq c.objectives (c.completed_objectives ++ [obj]))
                && c.completed_at.isNone then
              some now
            else c.completed_at } := by
  have h1 : obj ∈ c.objectives := by simpa using hobj
  have h2 : obj ∉ c.completed_objectives := by simpa using hnew
  unfold updateChapter
  simp [h1, h2]

/-- `find?` by chapter number commutes with a keyed pointwise update. -/
theorem find?_map_keyed (l : List ChapterState) (g : ChapterState → ChapterState)
    (hg : ∀ d, (g d).chapter_number = d.chapter_number) (n : Nat) :
    (l.map (fun d => if d.chapter_number == n then g d else d)).find?
        (fun c => c.chapter_number == n)
      = (l.find? (fun c => c.chapter_number == n)).map g := by
  induction l with
  | nil => rfl
  | cons d ds ih =>
    simp only [List.map_cons]
    by_cases hd : (d.chapter_number == n) = true
    · have hgd : ((g d).chapter_number == n) = true := by rw [hg d]; exact hd
      rw [if_pos hd,
        @List.find?_cons_of_pos ChapterState (fun c => c.chapter_number == n) (g d) _ hgd,
        @List.find?_cons_of_pos ChapterState (fun c => c.chapter_number == n) d ds hd]
      rfl
    · rw [if_neg hd,
        @List.find?_cons_of_neg ChapterState (fun c => c.chapter_number == n) d _ hd,
        @List.find?_cons_of_neg ChapterState (fun c => c.chapter_number == n) d ds hd, ih]

/-- `find?` by chapter number transports along a `Forall₂` relation that
preserves chapter numbers. -/
theorem find?_forall₂ {R : ChapterState → ChapterState → Prop}
    (hR : ∀ a b, R a b → b.chapter_number = a.chapter_number) :
    ∀ {l l' : List ChapterState}, List.Forall₂ R l l' → ∀ {n : Nat} {c : ChapterState},
      l.find? (fun d => d.chapter_number == n) = some c →
      ∃ c', l'.find? (fun d => d.chapter_number == n) = some c' ∧ R c c' := by
  intro l l' h
  induction h with
  | nil => intro n c hc; simp at hc
  | cons hab hrest ih =>
    intro n c hc
    rename_i a b l₁ l₂
    by_cases ha : (a.chapter_number == n) = true
    · rw [@List.find?_cons_of_pos ChapterState (fun d => d.chapter_number == n) a l₁ ha] at hc
      cases hc
      have hb : (b.chapter_number == n) = true := by rw [hR a b hab]; exact ha
      exact ⟨b, @List.find?_cons_of_pos ChapterState (fun d => d.chapter_number == n) b l₂ hb,
        hab⟩
    · rw [@List.find?_cons_of_neg ChapterState (fun d => d.chapter_number == n) a l₁ ha] at hc
      obtain ⟨c', hc', hr⟩ := ih hc
      have hb : ¬ (b.chapter_number == n) = true := by rw [hR a b hab]; exact ha
      refine ⟨c', ?_, hr⟩
      rw [@List.find?_cons_of_neg ChapterState (fun d => d.chapter_number == n) b l₂ hb]
      exact hc'

theorem completeObjectivePlan_chapterNotFound {p : StudyPlan} {ch : Nat} (obj : String)
    (now : ℤ) (h : p.chapters.find? (fun c => c.chapter_number == ch) = none) :
    completeObjectivePlan p ch obj now = .error .ChapterNotFound := by
  unfold completeObjectivePlan
  rw [h]

theorem completeObjectivePlan_objectiveNotFound {p : StudyPlan} {ch : Nat} {obj : String}
    (now : ℤ) {c : ChapterState}
    (hfind : p.chapters.find? (fun d => d.chapter_number == ch) = some c)
    (hobj : c.objectives.contains obj = false) :
    completeObjectivePlan p ch obj now = .error .ObjectiveNotFound := by
  have h1 : obj ∉ c.objectives := by simpa using hobj
  unfold completeObjectivePlan
  rw [hfind]
  simp [h1]

/-- The no-op branch of the tracker: an already-completed objective leaves the
plan untouched and reports `was_new = false` with the chapter's current
completion state. -/
theorem completeObjectivePlan_noop {p : StudyPlan} {ch : Nat} {obj : String} (now : ℤ)
    {c : ChapterState} (hfind : p.chapters.find? (fun d => d.chapter_number == ch) = some c)
    (hobj : c.objectives.contains obj = true)
    (hdone : c.completed_objectives.contains obj = true) :
    completeObjectivePlan p ch obj now = .ok (p, ⟨c.is_complete, false⟩) := by
  have h1 : obj ∈ c.objectives := by simpa using hobj
  have h2 : obj ∈ c.completed_objectives := by simpa using hdone
  unfold completeObjectivePlan
  rw [hfind]
  simp [h1, h2]

/-- The add branch of the tracker: a fresh objective of an existing chapter is
recorded via a keyed `updateChapter` and reported as `was_new = true`. -/
theorem completeObjectivePlan_addEq {p : StudyPlan} {ch : Nat} {obj : String} (now : ℤ)
    {c : ChapterState} (hfind : p.chapters.find? (fun d => d.chapter_number == ch) = some c)
    (hobj : c.objectives.contains obj = true)
    (hdone : c.completed_objectives.contains obj = false) :
    completeObjectivePlan p ch obj now
      = .ok ({ p with
          chapters := p.chapters.map
            (fun d => if d.chapter_number == ch then updateChapter d obj now else d),
          current_chapter :=
            if (updateChapter c obj now).is_complete && (p.current_chapter == ch) then
              nextChapterNumber p.chapters ch
            else p.current_chapter },
        ⟨(updateChapter c obj now).is_complete, true⟩) := by
  have h1 : obj ∈ c.objectives := by simpa using hobj
  have h2 : obj ∉ c.completed_objectives := by simpa using hdone
  unfold completeObjectivePlan
  rw [hfind]
  simp [h1, h2]

/-- Characterization of a successful tracker call. -/
theorem completeObjectivePlan_ok {p : StudyPlan} {ch : Nat} {obj : String} {now : ℤ}
    {p' : StudyPlan} {r : CompleteResult}
    (h : completeObjectivePlan p ch obj now = .ok (p', r)) :
    ∃ c, p.chapters.find? (fun d => d.chapter_number == ch) = some c ∧
      c.objectives.contains obj = true ∧
      ((c.completed_objectives.contains obj = true ∧ p' = p ∧
          r = ⟨c.is_complete, false⟩) ∨
        (c.completed_objectives.contains obj = false ∧
          r = ⟨(updateChapter c obj now).is_complete, true⟩ ∧
          p'.chapters = p.chapters.map
            (fun d => if d.chapter_number == ch then updateChapter d obj now else d))) := by
  cases hfind : p.chapters.find? (fun c => c.chapter_number == ch) with
  | none =>
    rw [completeObjectivePlan_chapterNotFound obj now hfind] at h
    cases h
  | some c =>
    refine ⟨c, rfl, ?_⟩
    by_cases hobj : c.objectives.contains obj = true
    · by_cases hdone : c.completed_objectives.contains obj = true
      · rw [completeObjectivePlan_noop now hfind hobj hdone] at h
        obtain ⟨h1, h2⟩ := Prod.mk.injEq .. ▸ Except.ok.injEq .. ▸ h
        exact ⟨hobj, Or.inl ⟨hdone, h1.symm, h2.symm⟩⟩
      · have hdone' : c.completed_objectives.contains obj = false := by
          simpa using hdone
        rw [completeObjectivePlan_addEq now hfind hobj hdone'] at h
        obtain ⟨h1, h2⟩ := Prod.mk.injEq .. ▸ Except.ok.injEq .. ▸ h
        refine ⟨hobj, Or.inr ⟨hdone', h2.symm, ?_⟩⟩
        rw [← h1]
    · have hobj' : c.objectives.contains obj = false := by simpa using hobj
      rw [completeObjectivePlan_objectiveNotFound now hfind hobj'] at h
      cases h

/-! ## Lemmas about the replanner and the consolidated operation -/

theorem chapterFrame_refl (c : ChapterState) : chapterFrame c c :=
  ⟨rfl, rfl, rfl, rfl, rfl, rfl, rfl, rfl, fun _ => rfl⟩

theorem replanWalk_forall₂ (anchor : ℤ) (days remHours : ℚ) :
    ∀ (cum : ℚ) (chs : List ChapterState),
      List.Forall₂ chapterFrame chs (replanWalk anchor days remHours cum chs) := by
  intro cum chs
  induction chs generalizing cum with
  | nil => exact List.Forall₂.nil
  | cons c cs ih =>
    unfold replanWalk
    by_cases hc : c.is_complete = true
    · rw [if_pos hc]
      exact List.Forall₂.cons (chapterFrame_refl c) (ih cum)
    · rw [if_neg hc]
      refine List.Forall₂.cons ⟨rfl, rfl, rfl, rfl, rfl, rfl, rfl, rfl, ?_⟩ (ih _)
      intro hcomp
      exact absurd hcomp hc

theorem replanPlan_frame (p : StudyPlan) (now : ℤ) :
    List.Forall₂ chapterFrame p.chapters ((replanPlan p now).1).chapters ∧
    ((replanPlan p now).1).current_chapter = p.current_chapter ∧
    ((replanPlan p now).1).target_days = p.target_days ∧
    ((replanPlan p now).1).start_date = p.start_date := by
  unfold replanPlan
  by_cases h : (p.chapters.filter (fun c => !c.is_complete)).isEmpty = true
  · rw [if_pos h]
    exact ⟨(List.forall₂_same).mpr (fun c _ => chapterFrame_refl c), rfl, rfl, rfl⟩
  · rw [if_neg h]
    exact ⟨replanWalk_forall₂ _ _ _ 0 p.chapters, rfl, rfl, rfl⟩

/-- A successful tracker call determines the consolidated operation. -/
theorem completeObjectiveFull_eq_of_tracker {p : StudyPlan} {ch : Nat} {obj : String}
    {now : ℤ} {p' : StudyPlan} {r : CompleteResult}
    (htr : completeObjectivePlan p ch obj now = .ok (p', r)) :
    completeObjectiveFull p ch obj now
      = if r.was_new && r.chapter_completed && (estimatePace p' now == .behind) then
          .ok ((replanPlan p' now).1, ⟨r.chapter_completed, (replanPlan p' now).2, r.was_new⟩)
        else .ok (p', ⟨r.chapter_completed, false, r.was_new⟩) := by
  unfold completeObjectiveFull
  rw [htr]

theorem completeObjectiveFull_eq_of_error {p : StudyPlan} {ch : Nat} {obj : String}
    {now : ℤ} {e : PlanError}
    (htr : completeObjectivePlan p ch obj now = .error e) :
    completeObjectiveFull p ch obj now = .error e := by
  unfold completeObjectiveFull
  rw [htr]

/-- Decomposition of a successful consolidated call into its tracker part and
an optional replan. -/
theorem completeObjectiveFull_ok {p : StudyPlan} {ch : Nat} {obj : String} {now : ℤ}
    {p₁ : StudyPlan} {r₁ : FullResult}
    (h : completeObjectiveFull p ch obj now = .ok (p₁, r₁)) :
    ∃ p' r, completeObjectivePlan p ch obj now = .ok (p', r) ∧
      r₁.chapter_completed = r.chapter_completed ∧ r₁.was_new = r.was_new ∧
      (p₁ = p' ∨ p₁ = (replanPlan p' now).1) := by
  cases htr : completeObjectivePlan p ch obj now with
  | error e =>
    rw [completeObjectiveFull_eq_of_error htr] at h
    cases h
  | ok pr =>
    obtain ⟨p', r⟩ := pr
    rw [completeObjectiveFull_eq_of_tracker htr] at h
    refine ⟨p', r, rfl, ?_⟩
    by_cases hcond : (r.was_new && r.chapter_completed && (estimatePace p' now == .behind))
      = true
    · rw [if_pos hcond] at h
      obtain ⟨h1, h2⟩ := Prod.mk.injEq .. ▸ Except.ok.injEq .. ▸ h
      rw [← h2]
      exact ⟨rfl, rfl, Or.inr h1.symm⟩
    · rw [if_neg hcond] at h
      obtain ⟨h1, h2⟩ := Prod.mk.injEq .. ▸ Except.ok.injEq .. ▸ h
      rw [← h2]
      exact ⟨rfl, rfl, Or.inl h1.symm⟩

/-- After a successful consolidated call, the addressed chapter holds the
objective as completed and reports the returned completion state. -/
theorem completeObjectiveFull_ok_state {p : StudyPlan} {ch : Nat} {obj : String}
    {now : ℤ} {p₁ : StudyPlan} {r₁ : FullResult}
    (h : completeObjectiveFull p ch obj now = .ok (p₁, r₁)) :
    ∃ c₁, p₁.chapters.find? (fun d => d.chapter_number == ch) = some c₁ ∧
      c₁.objectives.contains obj = true ∧
      c₁.completed_objectives.contains obj = true ∧
      c₁.is_complete = r₁.chapter_completed := by
  obtain ⟨p', r, htr, hcc, hwn, hrel⟩ := completeObjectiveFull_ok h
  obtain ⟨c, hfind, hobj, hbr⟩ := completeObjectivePlan_ok htr
  have hstate : ∃ c', p'.chapters.find? (fun d => d.chapter_number == ch) = some c' ∧
      c'.objectives.contains obj = true ∧
      c'.completed_objectives.contains obj = true ∧
      c'.is_complete = r.chapter_completed := by
    rcases hbr with ⟨hdone, rfl, rfl⟩ | ⟨hdone, rfl, hchs⟩
    · exact ⟨c, hfind, hobj, hdone, rfl⟩
    · refine ⟨updateChapter c obj now, ?_, ?_, ?_, rfl⟩
      · rw [hchs, find?_map_keyed p.chapters (fun d => updateChapter d obj now)
          (fun d => (updateChapter_frame d obj now).1) ch, hfind]
        rfl
      · rw [(updateChapter_frame c obj now).2.2.1]
        exact hobj
      · rw [updateChapter_add c obj now hobj hdone]
        simp
  obtain ⟨c', hfind', hobj', hdone', hic'⟩ := hstate
  rcases hrel with rfl | rfl
  · exact ⟨c', hfind', hobj', hdone', by rw [hic', hcc]⟩
  · obtain ⟨hfa, _, _, _⟩ := replanPlan_frame p' now
    obtain ⟨c₁, hfind₁, hfr⟩ := find?_forall₂ (fun a b hab => hab.1) hfa hfind'
    refine ⟨c₁, hfind₁, ?_, ?_, ?_⟩
    · rw [hfr.2.2.1]; exact hobj'
    · rw [hfr.2.2.2.2.1]; exact hdone'
    · rw [hfr.2.2.2.2.2.1, hic', hcc]

/-! ## C3: completeObjective is idempotent -/

/-- C3: after any successful `completeObjective`, a second call with the same
arguments is a no-op: it returns `was_new = false` together with the
chapter's current completion state, leaves the plan unchanged, and
`getChapterProgress` is identical after the first and the second call. -/
theorem c3_completeObjective_idempotent (p : StudyPlan) (ch : Nat) (obj : String)
    (t t' : ℤ) (p₁ : StudyPlan) (r₁ : FullResult)
    (h : completeObjectiveFull p ch obj t = .ok (p₁, r₁)) :
    completeObjectiveFull p₁ ch obj t' = .ok (p₁, ⟨r₁.chapter_completed, false, false⟩) ∧
    (completeObjectiveFull p₁ ch obj t').map (fun x => getChapterProgress x.1 ch)
      = .ok (getChapterProgress p₁ ch) := by
  obtain ⟨c₁, hfind, hobj, hdone, hic⟩ := completeObjectiveFull_ok_state h
  have htr := completeObjectivePlan_noop t' hfind hobj hdone
  have heq := completeObjectiveFull_eq_of_tracker htr
  have hres : completeObjectiveFull p₁ ch obj t'
      = .ok (p₁, ⟨r₁.chapter_completed, false, false⟩) := by
    rw [heq]
    simp [hic]
  exact ⟨hres, by rw [hres]; rfl⟩

/-- C3 witness: completing objective "a" of chapter 1 of the two-chapter plan
succeeds with `was_new = true`; the second identical call is a no-op with
`was_new = false` and leaves `getChapterProgress` unchanged. -/
theorem c3_completeObjective_idempotent_witness :
    completeObjectiveFull twoChapterPlan 1 "a" 1
      = .ok (twoChapterPlanDone1, ⟨true, false, true⟩) ∧
    completeObjectiveFull twoChapterPlanDone1 1 "a" 2
      = .ok (twoChapterPlanDone1, ⟨true, false, false⟩) ∧
    (completeObjectiveFull twoChapterPlanDone1 1 "a" 2).map
        (fun x => getChapterProgress x.1 1)
      = .ok (getChapterProgress twoChapterPlanDone1 1) :=
  have h : completeObjectiveFull twoChapterPlan 1 "a" 1
      = .ok (twoChapterPlanDone1, ⟨true, false, true⟩) := by decide
  ⟨h, (c3_completeObjective_idempotent twoChapterPlan 1 "a" 1 2 twoChapterPlanDone1
      ⟨true, false, true⟩ h).1,
    (c3_completeObjective_idempotent twoChapterPlan 1 "a" 1 2 twoChapterPlanDone1
      ⟨true, false, true⟩ h).2⟩

/-! ## C7: shape of the completeObjective result -/

/-- C7 counterexample to the claim as stated: neither the client's
`ObjectiveCompleteResponse` interface nor the documented API payload of the
mark-objective-complete endpoint carries a `was_new` field. -/
theorem c7_result_fields_counterexample :
    ("was_new" ∈ objectiveCompleteResponseFields → False) ∧
    ("was_new" ∈ markObjectiveCompleteDataKeys → False) ∧
    "chapter_completed" ∈ objectiveCompleteResponseFields := by
  refine ⟨by decide, by decide, by decide⟩

/-- C7 (amended): the client-visible result of a successful `completeObjective`
consists of `chapter_completed`, `replanned` and `message` and carries no
`was_new` field; the internal tracker outcome's `was_new` flag (spec
section 4.2) is `true` exactly when the objective was not previously in the
chapter's `completed_objectives`. -/
theorem c7_result_shape_and_was_new (p : StudyPlan) (ch : Nat) (obj : String)
    (now : ℤ) (p₁ : StudyPlan) (r₁ : FullResult) (c : ChapterState)
    (hfind : p.chapters.find? (fun d => d.chapter_number == ch) = some c)
    (h : completeObjectiveFull p ch obj now = .ok (p₁, r₁)) :
    ("chapter_completed" ∈ objectiveCompleteResponseFields ∧
      "replanned" ∈ objectiveCompleteResponseFields ∧
      "message" ∈ objectiveCompleteResponseFields ∧
      "was_new" ∉ objectiveCompleteResponseFields) ∧
    (r₁.was_new = true ↔ c.completed_objectives.contains obj = false) := by
  refine ⟨by decide, ?_⟩
  obtain ⟨p', r, htr, _, hwn, _⟩ := completeObjectiveFull_ok h
  obtain ⟨c₂, hfind₂, _, hbr⟩ := completeObjectivePlan_ok htr
  rw [hfind] at hfind₂
  cases hfind₂
  rw [hwn]
  rcases hbr with ⟨hdone, _, rfl⟩ | ⟨hdone, rfl, _⟩
  · have hmem : obj ∈ c.completed_objectives := by simpa using hdone
    simp [hdone, hmem]
  · have hmem : obj ∉ c.completed_objectives := by simpa using hdone
    simp [hdone, hmem]

/-- C7 witness: on the two-chapter plan, completing the fresh objective "a"
of chapter 1 yields `was_new = true`, matching its absence from
`completed_objectives`, and the response-field facts hold. -/
theorem c7_result_shape_and_was_new_witness :
    (("chapter_completed" ∈ objectiveCompleteResponseFields ∧
      "replanned" ∈ objectiveCompleteResponseFields ∧
      "message" ∈ objectiveCompleteResponseFields ∧
      "was_new" ∉ objectiveCompleteResponseFields) ∧
    ((⟨true, false, true⟩ : FullResult).was_new = true
      ↔ (([] : List String).contains "a") = false)) :=
  c7_result_shape_and_was_new twoChapterPlan 1 "a" 1 twoChapterPlanDone1
    ⟨true, false, true⟩
    { chapter_number := 1, title := "t1", objectives := ["a"], estimated_hours := 1,
      deadline := 5, started_at := none, completed_at := none, is_complete := false,
      completed_objectives := [] }
    (by decide) (by decide)

/-! ## C8: unknown chapter number is rejected atomically -/

/-- C8: when the stored plan for a subject has no chapter with the requested
`chapter_number`, the store-wrapped `completeObjective` returns
`ChapterNotFound` and the store — hence the stored plan — is unchanged. -/
theorem c8_chapter_not_found_atomic (s : PlanStore) (sid : String) (ch : Nat)
    (obj : String) (now : ℤ) (p : StudyPlan)
    (hload : storeLoad s sid = some p)
    (hno : ∀ c ∈ p.chapters, ¬ c.chapter_number = ch) :
    storeCompleteObjective s sid ch obj now = (s, .error .ChapterNotFound) := by
  have hfind : p.chapters.find? (fun c => c.chapter_number == ch) = none := by
    rw [List.find?_eq_none]
    intro x hx
    simpa using hno x hx
  have hfull := completeObjectiveFull_eq_of_error
    (completeObjectivePlan_chapterNotFound obj now hfind)
  unfold storeCompleteObjective
  simp only [hload, hfull]

/-- C8 witness: a store holding the two-chapter plan for subject "s" rejects
chapter 99 with `ChapterNotFound` and is byte-for-byte unchanged. -/
theorem c8_chapter_not_found_atomic_witness :
    storeCompleteObjective [("s", twoChapterPlan)] "s" 99 "a" 3
      = ([("s", twoChapterPlan)], .error .ChapterNotFound) :=
  c8_chapter_not_found_atomic [("s", twoChapterPlan)] "s" 99 "a" 3 twoChapterPlan
    (by decide) (by decide)

/-! ## C9: the client cannot uncomplete an objective -/

theorem toggleObjective_mem (s : SessionClientState) (objective : String)
    (response : Except String ObjectiveCompleteResponseModel) (x : String)
    (hx : x ∈ s.completedObjectives) :
    x ∈ (toggleObjective s objective response).1.completedObjectives := by
  unfold toggleObjective
  by_cases hg : s.completedObjectives.contains objective = true
  · rw [if_pos hg]
    exact hx
  · rw [if_neg hg]
    cases response with
    | ok r => exact List.mem_append_left _ hx
    | error e => exact hx

/-- C9: for an objective already in `completedObjectives`, `toggleObjective`
returns immediately: no network request is issued and `completedObjectives`,
`isChapterComplete` and `isSavingProgress` are all unchanged; and across any
sequence of `toggleObjective` calls the `completedObjectives` set only
grows. -/
theorem c9_toggleObjective_guard_monotone (s : SessionClientState) (objective : String)
    (response : Except String ObjectiveCompleteResponseModel)
    (calls : List (String × Except String ObjectiveCompleteResponseModel)) :
    (objective ∈ s.completedObjectives →
      toggleObjective s objective response = (s, false)) ∧
    ∀ x ∈ s.completedObjectives, x ∈ (toggleObjectiveSeq s calls).completedObjectives := by
  constructor
  · intro h
    have hg : s.completedObjectives.contains objective = true := by simpa using h
    unfold toggleObjective
    rw [if_pos hg]
  · induction calls generalizing s with
    | nil => intro x hx; exact hx
    | cons call rest ih =>
      intro x hx
      exact ih (toggleObjective s call.1 call.2).1
        x (toggleObjective_mem s call.1 call.2 x hx)

/-- C9 witness: with "a" already completed, a toggle of "a" is a pure no-op
with no request even when the request would fail, and "a" survives a later
toggle of "b". -/
theorem c9_toggleObjective_guard_monotone_witness :
    toggleObjective ⟨["a"], false, false⟩ "a" (.error "boom")
      = (⟨["a"], false, false⟩, false) ∧
    "a" ∈ (toggleObjectiveSeq ⟨["a"], false, false⟩
      [("b", .ok ⟨true, false, "ok"⟩)]).completedObjectives :=
  ⟨(c9_toggleObjective_guard_monotone ⟨["a"], false, false⟩ "a" (.error "boom") []).1
      (by decide),
    (c9_toggleObjective_guard_monotone ⟨["a"], false, false⟩ "a" (.error "boom")
      [("b", .ok ⟨true, false, "ok"⟩)]).2 "a" (by decide)⟩

/-! ## C4: completion detection invariant -/

theorem setsEq_iff (xs ys : List String) :
    setsEq xs ys = true ↔ ((∀ x ∈ xs, x ∈ ys) ∧ ∀ y ∈ ys, y ∈ xs) := by
  unfold setsEq
  simp [List.all_eq_true]

theorem buildChapters_wf (start : ℤ) (days total : ℚ) :
    ∀ (cum : ℚ) (chs : List ChapterInput) (c : ChapterState),
      c ∈ buildChapters start days total cum chs →
      c.completed_objectives = [] ∧ c.is_complete = false := by
  intro cum chs
  induction chs generalizing cum with
  | nil => intro c hc; simp [buildChapters] at hc
  | cons d ds ih =>
    intro c hc
    unfold buildChapters at hc
    rcases List.mem_cons.mp hc with rfl | hc
    · exact ⟨rfl, rfl⟩
    · exact ih _ c hc

theorem chapterWF_of_new (c : ChapterState) (h1 : c.completed_objectives = [])
    (h2 : c.is_complete = false) : chapterWF c := by
  constructor
  · intro o ho
    rw [h1] at ho
    cases ho
  · rw [h2]
    constructor
    · intro hfalse
      cases hfalse
    · rintro ⟨hne, hall⟩
      rcases List.exists_mem_of_ne_nil _ hne with ⟨o, ho⟩
      have := hall o ho
      rw [h1] at this
      cases this

theorem updateChapter_wf (c : ChapterState) (obj : String) (now : ℤ)
    (h : chapterWF c) : chapterWF (updateChapter c obj now) := by
  obtain ⟨hsub, hiff⟩ := h
  by_cases hobj : obj ∈ c.objectives
  · by_cases hdone : obj ∈ c.completed_objectives
    · rw [updateChapter_nochange c obj now (Or.inr (by simpa using hdone))]
      exact ⟨hsub, hiff⟩
    · have hic : c.is_complete = false := by
        rcases hhic : c.is_complete with _ | _
        · rfl
        · exact absurd (hdone) (by simpa using (hiff.mp hhic).2 obj hobj)
      have hobj' : c.objectives.contains obj = true := by simpa using hobj
      have hdone' : c.completed_objectives.contains obj = false := by simpa using hdone
      have hne : c.objectives ≠ [] := List.ne_nil_of_mem hobj
      rw [updateChapter_addFull c obj now hobj' hdone']
      constructor
      · show ∀ o ∈ c.completed_objectives ++ [obj], o ∈ c.objectives
        intro o ho
        rcases List.mem_append.mp ho with ho | ho
        · exact hsub o ho
        · rcases List.mem_singleton.mp ho with rfl
          exact hobj
      · show (c.is_complete || setsEq c.objectives (c.completed_objectives ++ [obj])) = true
          ↔ (c.objectives ≠ [] ∧ ∀ o ∈ c.objectives, o ∈ c.completed_objectives ++ [obj])
        rw [hic, Bool.false_or, setsEq_iff]
        constructor
        · rintro ⟨hforward, _⟩
          exact ⟨hne, hforward⟩
        · rintro ⟨_, hforward⟩
          refine ⟨hforward, ?_⟩
          intro y hy
          rcases List.mem_append.mp hy with hy | hy
          · exact hsub y hy
          · rcases List.mem_singleton.mp hy with rfl
            exact hobj
  · rw [updateChapter_nochange c obj now (Or.inl (by simpa using hobj))]
    exact ⟨hsub, hiff⟩

theorem chapterWF_of_frame {c c' : ChapterState} (hf : chapterFrame c c')
    (h : chapterWF c) : chapterWF c' := by
  obtain ⟨_, _, hobj, _, hcomp, hic, _⟩ := hf
  unfold chapterWF
  rw [hobj, hcomp, hic]
  exact h

theorem allWF_forall₂ {l l' : List ChapterState}
    (hfa : List.Forall₂ chapterFrame l l') (h : ∀ c ∈ l, chapterWF c) :
    ∀ c ∈ l', chapterWF c := by
  induction hfa with
  | nil => intro c hc; cases hc
  | cons hab hrest ih =>
    intro c hc
    rcases List.mem_cons.mp hc with rfl | hc
    · exact chapterWF_of_frame hab (h _ (List.mem_cons_self _ _))
    · exact ih (fun d hd => h d (List.mem_cons_of_mem _ hd)) c hc

theorem allWF_map_update {chs : List ChapterState} (n : Nat) (obj : String) (now : ℤ)
    (h : ∀ c ∈ chs, chapterWF c) :
    ∀ c ∈ chs.map (fun d => if d.chapter_number == n then updateChapter d obj now else d),
      chapterWF c := by
  intro c hc
  rcases List.mem_map.mp hc with ⟨d, hd, rfl⟩
  by_cases hdn : (d.chapter_number == n) = true
  · rw [if_pos hdn]
    exact updateChapter_wf d obj now (h d hd)
  · rw [if_neg hdn]
    exact h d hd

theorem reach_allWF (p : StudyPlan) (h : Reach p) : ∀ c ∈ p.chapters, chapterWF c := by
  induction h with
  | generate sid chapters td dh start q hok =>
    obtain ⟨hchs, _, _, _⟩ := buildPlan_ok_chapters hok
    intro c hc
    rw [hchs] at hc
    obtain ⟨h1, h2⟩ := buildChapters_wf start (td : ℚ) (totalHours chapters) 0 chapters c hc
    exact chapterWF_of_new c h1 h2
  | step q op hq ih =>
    cases op with
    | complete ch obj t =>
      cases hfull : completeObjectiveFull q ch obj t with
      | error e => simpa only [applyOp, hfull] using ih
      | ok pr =>
        obtain ⟨p₁, r₁⟩ := pr
        simp only [applyOp, hfull]
        obtain ⟨p', r, htr, _, _, hrel⟩ := completeObjectiveFull_ok hfull
        obtain ⟨c, _, _, hbr⟩ := completeObjectivePlan_ok htr
        have hwf' : ∀ c ∈ p'.chapters, chapterWF c := by
          rcases hbr with ⟨_, rfl, _⟩ | ⟨_, _, hchs⟩
          · exact ih
          · rw [hchs]
            exact allWF_map_update ch obj t ih
        rcases hrel with rfl | rfl
        · exact hwf'
        · exact allWF_forall₂ (replanPlan_frame p' t).1 hwf'
    | replan t =>
      simpa only [applyOp] using allWF_forall₂ (replanPlan_frame q t).1 ih

/-- C4: in every reachable plan state, a chapter with a non-empty objective
list is complete exactly when its `completed_objectives` equals its
`objectives` as a set, and a chapter with zero objectives is never marked
complete. -/
theorem c4_completion_iff (p : StudyPlan) (h : Reach p) :
    ∀ c ∈ p.chapters,
      (c.objectives ≠ [] →
        (c.is_complete = true ↔
          ((∀ o ∈ c.objectives, o ∈ c.completed_objectives) ∧
            ∀ o ∈ c.completed_objectives, o ∈ c.objectives))) ∧
      (c.objectives = [] → c.is_complete = false) := by
  intro c hc
  obtain ⟨hsub, hiff⟩ := reach_allWF p h c hc
  constructor
  · intro hne
    rw [hiff]
    constructor
    · rintro ⟨_, hall⟩
      exact ⟨hall, hsub⟩
    · rintro ⟨hall, _⟩
      exact ⟨hne, hall⟩
  · intro hnil
    rcases hhic : c.is_complete with _ | _
    · rfl
    · exact absurd (hiff.mp hhic).1 (by simp [hnil])

/-- C4 witness: in the freshly generated two-chapter plan, chapter 1 (a
non-empty objective list, nothing completed) is reported incomplete, matching
the set-equality characterization. -/
theorem c4_completion_iff_witness :
    (((⟨1, "t1", ["a"], 1, 5, none, none, false, []⟩ : ChapterState).objectives ≠ [] →
      ((⟨1, "t1", ["a"], 1, 5, none, none, false, []⟩ : ChapterState).is_complete = true ↔
        ((∀ o ∈ (⟨1, "t1", ["a"], 1, 5, none, none, false, []⟩ : ChapterState).objectives,
            o ∈ (⟨1, "t1", ["a"], 1, 5, none, none, false,
              []⟩ : ChapterState).completed_objectives) ∧
          ∀ o ∈ (⟨1, "t1", ["a"], 1, 5, none, none, false,
              []⟩ : ChapterState).completed_objectives,
            o ∈ (⟨1, "t1", ["a"], 1, 5, none, none, false, []⟩ : ChapterState).objectives))) ∧
    ((⟨1, "t1", ["a"], 1, 5, none, none, false, []⟩ : ChapterState).objectives = [] →
      (⟨1, "t1", ["a"], 1, 5, none, none, false, []⟩ : ChapterState).is_complete = false)) :=
  c4_completion_iff twoChapterPlan
    (Reach.generate "s" twoChapterInput 10 2 0 twoChapterPlan (by decide))
    ⟨1, "t1", ["a"], 1, 5, none, none, false, []⟩ (by decide)

/-! ## C2: deadline ordering -/

theorem buildChapters_hours (start : ℤ) (days total : ℚ) :
    ∀ (cum : ℚ) (chs : List ChapterInput), (∀ ci ∈ chs, 0 < ci.estimated_hours) →
      ∀ c ∈ buildChapters start days total cum chs, 0 < c.estimated_hours := by
  intro cum chs
  induction chs generalizing cum with
  | nil => intro _ c hc; simp [buildChapters] at hc
  | cons d ds ih =>
    intro hpos c hc
    unfold buildChapters at hc
    rcases List.mem_cons.mp hc with rfl | hc
    · exact hpos d (List.mem_cons_self _ _)
    · exact ih _ (fun ci hci => hpos ci (List.mem_cons_of_mem _ hci)) c hc

theorem ceil_mono_step (days total x y : ℚ) (hd : 0 ≤ days) (ht : 0 < total)
    (hxy : x ≤ y) :
    Int.ceil (days * x / total) ≤ Int.ceil (days * y / total) := by
  apply Int.ceil_le_ceil
  have h1 : days * x ≤ days * y := mul_le_mul_of_nonneg_left hxy hd
  exact (div_le_div_right ht).mpr h1

theorem buildChapters_deadline_chain (start : ℤ) (days total : ℚ)
    (hd : 0 ≤ days) (ht : 0 < total) :
    ∀ (cum : ℚ) (chs : List ChapterInput), (∀ c ∈ chs, 0 ≤ c.estimated_hours) →
      List.Chain' (fun a b => a ≤ b)
        ((buildChapters start days total cum chs).map (·.deadline)) := by
  intro cum chs
  induction chs generalizing cum with
  | nil => intro _; simp [buildChapters]
  | cons c cs ih =>
    intro hpos
    cases cs with
    | nil => simp [buildChapters]
    | cons c2 t =>
      simp only [buildChapters, List.map_cons]
      rw [List.chain'_cons]
      constructor
      · apply add_le_add_left
        apply ceil_mono_step days total _ _ hd ht
        have h2 : 0 ≤ c2.estimated_hours :=
          hpos c2 (List.mem_cons_of_mem _ (List.mem_cons_self _ _))
        linarith
      · have := ih (cum + c.estimated_hours)
          (fun d hd2 => hpos d (List.mem_cons_of_mem _ hd2))
        simpa [buildChapters, List.map_cons] using this

theorem map_update_deadline (chs : List ChapterState) (n : Nat) (obj : String)
    (now : ℤ) :
    ((chs.map (fun d => if d.chapter_number == n then updateChapter d obj now else d)).map
        (·.deadline))
      = chs.map (·.deadline) := by
  induction chs with
  | nil => rfl
  | cons d ds ih =>
    simp only [List.map_cons, ih]
    congr 1
    by_cases hd : (d.chapter_number == n) = true
    · rw [if_pos hd, (updateChapter_frame d obj now).2.2.2.2]
    · rw [if_neg hd]

theorem completeObjectivePlan_deadlines {p : StudyPlan} {ch : Nat} {obj : String}
    {now : ℤ} {p' : StudyPlan} {r : CompleteResult}
    (h : completeObjectivePlan p ch obj now = .ok (p', r)) :
    p'.chapters.map (·.deadline) = p.chapters.map (·.deadline) := by
  obtain ⟨c, _, _, hbr⟩ := completeObjectivePlan_ok h
  rcases hbr with ⟨_, rfl, _⟩ | ⟨_, _, hchs⟩
  · rfl
  · rw [hchs, map_update_deadline]

theorem hoursPos_map_update {chs : List ChapterState} (n : Nat) (obj : String) (now : ℤ)
    (h : ∀ c ∈ chs, 0 < c.estimated_hours) :
    ∀ c ∈ chs.map (fun d => if d.chapter_number == n then updateChapter d obj now else d),
      0 < c.estimated_hours := by
  intro c hc
  rcases List.mem_map.mp hc with ⟨d, hd, rfl⟩
  by_cases hdn : (d.chapter_number == n) = true
  · rw [if_pos hdn, (updateChapter_frame d obj now).2.2.2.1]
    exact h d hd
  · rw [if_neg hdn]
    exact h d hd

theorem hoursPos_forall₂ {l l' : List ChapterState}
    (hfa : List.Forall₂ chapterFrame l l') (h : ∀ c ∈ l, 0 < c.estimated_hours) :
    ∀ c ∈ l', 0 < c.estimated_hours := by
  induction hfa with
  | nil => intro c hc; cases hc
  | cons hab hrest ih =>
    intro c hc
    rcases List.mem_cons.mp hc with rfl | hc
    · rw [hab.2.2.2.1]
      exact h _ (List.mem_cons_self _ _)
    · exact ih (fun d hd => h d (List.mem_cons_of_mem _ hd)) c hc

theorem le_foldl_max (l : List ℤ) (a : ℤ) :
    a ≤ l.foldl max a ∧ ∀ x ∈ l, x ≤ l.foldl max a := by
  induction l generalizing a with
  | nil => exact ⟨le_refl a, fun x hx => absurd hx (List.not_mem_nil x)⟩
  | cons y t ih =>
    have hstep := ih (max a y)
    refine ⟨le_trans (le_max_left a y) hstep.1, ?_⟩
    intro x hx
    rcases List.mem_cons.mp hx with rfl | hx
    · exact le_trans (le_max_right a x) hstep.1
    · exact hstep.2 x hx

theorem replanWalk_cons_complete (anchor : ℤ) (days rh cum : ℚ) (c : ChapterState)
    (cs : List ChapterState) (hd : c.is_complete = true) :
    replanWalk anchor days rh cum (c :: cs) = c :: replanWalk anchor days rh cum cs := by
  conv_lhs => unfold replanWalk
  rw [if_pos hd]

theorem replanWalk_cons_incomplete (anchor : ℤ) (days rh cum : ℚ) (c : ChapterState)
    (cs : List ChapterState) (hd : c.is_complete = false) :
    replanWalk anchor days rh cum (c :: cs)
      = { c with deadline := anchor + Int.ceil (days * (cum + c.estimated_hours) / rh) }
          :: replanWalk anchor days rh (cum + c.estimated_hours) cs := by
  conv_lhs => unfold replanWalk
  rw [if_neg (by simp [hd])]

theorem replanWalk_append_complete (anchor : ℤ) (days rh : ℚ) :
    ∀ (ds : List ChapterState), (∀ c ∈ ds, c.is_complete = true) →
      ∀ (cum : ℚ) (rs : List ChapterState),
        replanWalk anchor days rh cum (ds ++ rs) = ds ++ replanWalk anchor days rh cum rs := by
  intro ds
  induction ds with
  | nil => intro _ cum rs; rfl
  | cons d t ih =>
    intro hds cum rs
    have hd : d.is_complete = true := hds d (List.mem_cons_self _ _)
    simp only [List.cons_append]
    rw [replanWalk_cons_complete anchor days rh cum d (t ++ rs) hd,
      ih (fun c hc => hds c (List.mem_cons_of_mem _ hc)) cum rs]

theorem replanWalk_incomplete_chain (anchor : ℤ) (days rh : ℚ)
    (hd : 0 ≤ days) (hrh : 0 < rh) :
    ∀ (cum : ℚ) (rs : List ChapterState), (∀ c ∈ rs, c.is_complete = false) →
      (∀ c ∈ rs, 0 ≤ c.estimated_hours) →
      List.Chain' (fun a b => a ≤ b)
        ((replanWalk anchor days rh cum rs).map (·.deadline)) := by
  intro cum rs
  induction rs generalizing cum with
  | nil => intro _ _; simp [replanWalk]
  | cons c cs ih =>
    intro hinc hpos
    have hc : c.is_complete = false := hinc c (List.mem_cons_self _ _)
    rw [replanWalk_cons_incomplete anchor days rh cum c cs hc, List.map_cons,
      List.chain'_cons']
    have htail := ih (cum + c.estimated_hours)
      (fun d hd2 => hinc d (List.mem_cons_of_mem _ hd2))
      (fun d hd2 => hpos d (List.mem_cons_of_mem _ hd2))
    refine ⟨?_, htail⟩
    intro y hy
    cases cs with
    | nil => simp [replanWalk] at hy
    | cons c2 t =>
      have hc2 : c2.is_complete = false :=
        hinc c2 (List.mem_cons_of_mem _ (List.mem_cons_self _ _))
      rw [replanWalk_cons_incomplete anchor days rh _ c2 t hc2, List.map_cons,
        List.head?_cons] at hy
      simp only [Option.mem_def, Option.some.injEq] at hy
      subst hy
      show anchor + Int.ceil (days * (cum + c.estimated_hours) / rh)
        ≤ anchor + Int.ceil (days * ((cum + c.estimated_hours) + c2.estimated_hours) / rh)
      apply add_le_add_left
      apply ceil_mono_step days rh _ _ hd hrh
      have h2 : 0 ≤ c2.estimated_hours :=
        hpos c2 (List.mem_cons_of_mem _ (List.mem_cons_self _ _))
      linarith

theorem replanWalk_incomplete_head (anchor : ℤ) (days rh cum : ℚ)
    (c : ChapterState) (cs : List ChapterState)
    (hd : 1 ≤ days) (hrh : 0 < rh) (hcum : 0 ≤ cum) (hch : 0 < c.estimated_hours)
    (hc : c.is_complete = false) :
    ∀ x ∈ ((replanWalk anchor days rh cum (c :: cs)).map (·.deadline)).head?,
      anchor + 1 ≤ x := by
  rw [replanWalk_cons_incomplete anchor days rh cum c cs hc, List.map_cons,
    List.head?_cons]
  simp only [Option.mem_def, Option.some.injEq]
  rintro x rfl
  show anchor + 1 ≤ anchor + Int.ceil (days * (cum + c.estimated_hours) / rh)
  apply add_le_add_left
  have hq : 0 < days * (cum + c.estimated_hours) / rh := by
    apply div_pos _ hrh
    apply mul_pos (lt_of_lt_of_le one_pos hd)
    linarith
  have hceil := Int.ceil_pos.mpr hq
  omega

theorem filter_complete_split {ds rs : List ChapterState}
    (hds : ∀ c ∈ ds, c.is_complete = true) (hrs : ∀ c ∈ rs, c.is_complete = false) :
    (ds ++ rs).filter (fun c => !c.is_complete) = rs ∧
    (ds ++ rs).filter (fun c => c.is_complete) = ds := by
  constructor
  · rw [List.filter_append]
    rw [List.filter_eq_nil.mpr (fun a ha => by simp [hds a ha]),
      List.filter_eq_self.mpr (fun a ha => by simp [hrs a ha])]
    rfl
  · rw [List.filter_append]
    rw [List.filter_eq_self.mpr (fun a ha => hds a ha),
      List.filter_eq_nil.mpr (fun a ha => by simp [hrs a ha])]
    simp

/-- The Replanner preserves deadline ordering whenever the completed chapters
form a prefix of the chapter order. -/
theorem replanPlan_mono (p : StudyPlan) (now : ℤ)
    (hhours : hoursPos p) (hmono : deadlinesMono p) (hlead : completedLeading p) :
    deadlinesMono (replanPlan p now).1 := by
  obtain ⟨ds, rs, hsplit, hds, hrs⟩ := hlead
  have hrem : p.chapters.filter (fun c => !c.is_complete) = rs := by
    rw [hsplit]; exact (filter_complete_split hds hrs).1
  have hdone : p.chapters.filter (fun c => c.is_complete) = ds := by
    rw [hsplit]; exact (filter_complete_split hds hrs).2
  cases hrsc : rs with
  | nil =>
    have hemp : (p.chapters.filter (fun c => !c.is_complete)).isEmpty = true := by
      rw [hrem, hrsc]
      rfl
    unfold replanPlan
    rw [if_pos hemp]
    exact hmono
  | cons r0 rt =>
    subst hrsc
    have hemp : ¬ (p.chapters.filter (fun c => !c.is_complete)).isEmpty = true := by
      rw [hrem]
      simp
    unfold replanPlan
    rw [if_neg hemp]
    unfold deadlinesMono
    simp only []
    rw [hrem, hdone, hsplit,
      replanWalk_append_complete _ _ _ ds hds 0 (r0 :: rt), List.map_append]
    have hdays : (1 : ℚ) ≤ ((max 1 ((p.target_days : ℤ) - (now - p.start_date)) : ℤ) : ℚ) := by
      exact_mod_cast le_max_left 1 ((p.target_days : ℤ) - (now - p.start_date))
    have hrhpos : (0 : ℚ) < (((r0 :: rt).map (·.estimated_hours)).sum) := by
      apply List.sum_pos
      · intro h hh
        rcases List.mem_map.mp hh with ⟨c, hc, rfl⟩
        exact hhours c (by rw [hsplit]; exact List.mem_append_right _ hc)
      · simp
    have hrspos : ∀ c ∈ (r0 :: rt), 0 ≤ c.estimated_hours := by
      intro c hc
      exact le_of_lt (hhours c (by rw [hsplit]; exact List.mem_append_right _ hc))
    rw [List.chain'_append]
    refine ⟨?_, ?_, ?_⟩
    · have := hmono
      unfold deadlinesMono at this
      rw [hsplit, List.map_append, List.chain'_append] at this
      exact this.1
    · exact replanWalk_incomplete_chain _ _ _ (le_trans zero_le_one hdays) hrhpos 0
        (r0 :: rt) hrs hrspos
    · intro x hx y hy
      have hxle : x ≤ (ds.map (·.deadline)).foldl max now :=
        (le_foldl_max (ds.map (·.deadline)) now).2 x (List.mem_of_mem_getLast? hx)
      have hr0 : r0.is_complete = false := hrs r0 (List.mem_cons_self _ _)
      have hr0h : 0 < r0.estimated_hours :=
        hhours r0 (by rw [hsplit]
                      exact List.mem_append_right _ (List.mem_cons_self _ _))
      have hy1 : (ds.map (·.deadline)).foldl max now + 1 ≤ y :=
        replanWalk_incomplete_head _ _ _ 0 r0 rt hdays hrhpos (le_refl 0) hr0h hr0
          y hy
      omega

theorem reachOrdered_inv (p : StudyPlan) (h : ReachOrdered p) :
    hoursPos p ∧ deadlinesMono p := by
  induction h with
  | generate sid chapters td dh start q hpos hok =>
    obtain ⟨hchs, hne, _, _⟩ := buildPlan_ok_chapters hok
    constructor
    · intro c hc
      rw [hchs] at hc
      exact buildChapters_hours start (td : ℚ) (totalHours chapters) 0 chapters hpos c hc
    · unfold deadlinesMono
      rw [hchs]
      exact buildChapters_deadline_chain start (td : ℚ) (totalHours chapters)
        (Nat.cast_nonneg td) (totalHours_pos hne hpos) 0 chapters
        (fun c hc => le_of_lt (hpos c hc))
  | complete q ch obj t p' r hq htr ih =>
    constructor
    · obtain ⟨c, _, _, hbr⟩ := completeObjectivePlan_ok htr
      rcases hbr with ⟨_, rfl, _⟩ | ⟨_, _, hchs⟩
      · exact ih.1
      · intro c2 hc2
        rw [hchs] at hc2
        exact hoursPos_map_update ch obj t ih.1 c2 hc2
    · unfold deadlinesMono
      rw [completeObjectivePlan_deadlines htr]
      exact ih.2
  | replan q t hq hlead ih =>
    exact ⟨hoursPos_forall₂ (replanPlan_frame q t).1 ih.1,
      replanPlan_mono q t ih.1 ih.2 hlead⟩

/-- C2 (amended): deadline ordering holds after `generate` and is preserved by
`completeObjective`; `replan` preserves it provided the completed chapters
form a prefix of the chapter order at the time of replanning.  For every plan
reachable under that discipline, chapter deadlines are non-decreasing in the
chapter order. -/
theorem c2_deadline_order (p : StudyPlan) (h : ReachOrdered p) :
    ∀ (i j : Nat) (hi : i < p.chapters.length) (hj : j < p.chapters.length),
      i ≤ j → (p.chapters.get ⟨i, hi⟩).deadline ≤ (p.chapters.get ⟨j, hj⟩).deadline := by
  have hmono := (reachOrdered_inv p h).2
  unfold deadlinesMono at hmono
  have hpair := List.chain'_iff_pairwise.mp hmono
  intro i j hi hj hij
  rcases Nat.lt_or_ge i j with hlt | hge
  · have hi' : i < (p.chapters.map (·.deadline)).length := by simpa using hi
    have hj' : j < (p.chapters.map (·.deadline)).length := by simpa using hj
    have := List.pairwise_iff_get.mp hpair ⟨i, hi'⟩ ⟨j, hj'⟩ hlt
    simpa using this
  · have heq : i = j := le_antisymm hij hge
    subst heq
    exact le_refl _

/-- C2 witness: the freshly generated two-chapter plan is reachable under the
ordered discipline, and its chapter deadlines (day 5, day 10) are ordered. -/
theorem c2_deadline_order_witness :
    (twoChapterPlan.chapters.get ⟨0, by decide⟩).deadline
      ≤ (twoChapterPlan.chapters.get ⟨1, by decide⟩).deadline :=
  c2_deadline_order twoChapterPlan
    (ReachOrdered.generate "s" twoChapterInput 10 2 0 twoChapterPlan (by decide)
      (by decide))
    0 1 (by decide) (by decide) (by decide)

/-- C2 counterexample to the claim as stated: completing chapter 2 before
chapter 1 (allowed by `completeObjective`) and then replanning at time 1
anchors chapter 1's new deadline after chapter 2's frozen deadline: the
deadlines become `[19, 10]`, so `deadline(chapter 1) > deadline(chapter 2)`
in a state reachable by generate, completeObjective and replan. -/
theorem c2_deadline_order_counterexample :
    buildPlan "s" twoChapterInput 10 2 0 = .ok twoChapterPlan ∧
    (applyOps twoChapterPlan [.complete 2 "b" 1, .replan 1]).chapters.map (·.deadline)
      = [19, 10] ∧
    ¬ deadlinesMono (applyOps twoChapterPlan [.complete 2 "b" 1, .replan 1]) := by
  refine ⟨by decide, by decide, fun hmono => ?_⟩
  have h19 : (applyOps twoChapterPlan [.complete 2 "b" 1, .replan 1]).chapters.map
      (·.deadline) = [19, 10] := by decide
  unfold deadlinesMono at hmono
  rw [h19] at hmono
  exact absurd (List.chain'_cons.mp hmono).1 (by decide)

/-! ## C5: replanning only moves deadlines; progress never decreases -/

theorem forall₂_counts {l l' : List ChapterState}
    (h : List.Forall₂ chapterFrame l l') :
    l'.map (·.objectives.length) = l.map (·.objectives.length) ∧
    l'.map (·.completed_objectives.length) = l.map (·.completed_objectives.length) := by
  induction h with
  | nil => exact ⟨rfl, rfl⟩
  | cons hab hrest ih =>
    simp only [List.map_cons]
    exact ⟨by rw [ih.1, hab.2.2.1], by rw [ih.2, hab.2.2.2.2.1]⟩

theorem map_update_objectives_length (chs : List ChapterState) (n : Nat) (obj : String)
    (now : ℤ) :
    ((chs.map (fun d => if d.chapter_number == n then updateChapter d obj now else d)).map
        (·.objectives.length))
      = chs.map (·.objectives.length) := by
  induction chs with
  | nil => rfl
  | cons d ds ih =>
    simp only [List.map_cons, ih]
    congr 1
    by_cases hd : (d.chapter_number == n) = true
    · rw [if_pos hd, (updateChapter_frame d obj now).2.2.1]
    · rw [if_neg hd]

theorem map_update_completed_sum_le (chs : List ChapterState) (n : Nat) (obj : String)
    (now : ℤ) :
    (chs.map (·.completed_objectives.length)).sum ≤
      (((chs.map (fun d => if d.chapter_number == n then updateChapter d obj now else d)).map
          (·.completed_objectives.length))).sum := by
  induction chs with
  | nil => exact le_refl _
  | cons d ds ih =>
    simp only [List.map_cons, List.sum_cons]
    have hd : d.completed_objectives.length ≤
        (if d.chapter_number == n then updateChapter d obj now else d).completed_objectives.length := by
      by_cases h : (d.chapter_number == n) = true
      · rw [if_pos h]
        rcases updateChapter_completed_cases d obj now with he | he <;> rw [he] <;> simp
      · rw [if_neg h]
    exact Nat.add_le_add hd ih

theorem overall_le_of_counts {a b t : Nat} (h : a ≤ b) :
    (a : ℚ) / (t : ℚ) * 100 ≤ (b : ℚ) / (t : ℚ) * 100 := by
  rcases Nat.eq_zero_or_pos t with rfl | ht
  · simp
  · have htq : (0 : ℚ) < t := by exact_mod_cast ht
    have hc : (a : ℚ) ≤ b := by exact_mod_cast h
    exact mul_le_mul_of_nonneg_right ((div_le_div_right htq).mpr hc) (by norm_num)

theorem overall_applyOp (p : StudyPlan) (op : PlanOp) :
    overallProgressPercent p ≤ overallProgressPercent (applyOp p op) := by
  have key : totalObjectives (applyOp p op) = totalObjectives p ∧
      completedObjectivesTotal p ≤ completedObjectivesTotal (applyOp p op) := by
    cases op with
    | replan t =>
      simp only [applyOp]
      obtain ⟨ho, hc⟩ := forall₂_counts (replanPlan_frame p t).1
      unfold totalObjectives completedObjectivesTotal
      rw [ho, hc]
      exact ⟨rfl, le_refl _⟩
    | complete ch obj t =>
      cases hfull : completeObjectiveFull p ch obj t with
      | error e =>
        simp only [applyOp, hfull]
        exact ⟨trivial, le_refl _⟩
      | ok pr =>
        obtain ⟨p₁, r₁⟩ := pr
        simp only [applyOp, hfull]
        obtain ⟨p', r, htr, _, _, hrel⟩ := completeObjectiveFull_ok hfull
        obtain ⟨c, _, _, hbr⟩ := completeObjectivePlan_ok htr
        have hp' : totalObjectives p' = totalObjectives p ∧
            completedObjectivesTotal p ≤ completedObjectivesTotal p' := by
          rcases hbr with ⟨_, rfl, _⟩ | ⟨_, _, hchs⟩
          · exact ⟨rfl, le_refl _⟩
          · unfold totalObjectives completedObjectivesTotal
            rw [hchs]
            exact ⟨by rw [map_update_objectives_length],
              map_update_completed_sum_le p.chapters ch obj t⟩
        rcases hrel with rfl | rfl
        · exact hp'
        · obtain ⟨ho, hc⟩ := forall₂_counts (replanPlan_frame p' t).1
          unfold totalObjectives completedObjectivesTotal at hp' ⊢
          rw [ho, hc]
          exact hp'
  unfold overallProgressPercent
  rw [key.1]
  exact overall_le_of_counts key.2

theorem overall_applyOps (p : StudyPlan) (ops : List PlanOp) :
    overallProgressPercent p ≤ overallProgressPercent (applyOps p ops) := by
  induction ops generalizing p with
  | nil => exact le_refl _
  | cons op rest ih => exact le_trans (overall_applyOp p op) (ih (applyOp p op))

/-- C5: `replan` relates every chapter to its replanned version by the frame
relation — objectives, completed objectives, completion state (and the other
non-deadline fields) are untouched, and a completed chapter also keeps its
deadline — and `overall_progress_percent` never decreases across any sequence
of `completeObjective` and `replan` operations. -/
theorem c5_replan_frame_progress_monotone :
    (∀ (p : StudyPlan) (now : ℤ),
      List.Forall₂ chapterFrame p.chapters ((replanPlan p now).1).chapters) ∧
    ∀ (p : StudyPlan) (ops : List PlanOp),
      overallProgressPercent p ≤ overallProgressPercent (applyOps p ops) :=
  ⟨fun p now => (replanPlan_frame p now).1, overall_applyOps⟩

/-- C5 witness: on the plan with chapter 1 completed, replanning relates the
chapters by the frame relation, and the overall progress after completing
chapter 2's objective and replanning has not decreased. -/
theorem c5_replan_frame_progress_monotone_witness :
    List.Forall₂ chapterFrame twoChapterPlanDone1.chapters
      ((replanPlan twoChapterPlanDone1 3).1).chapters ∧
    overallProgressPercent twoChapterPlan
      ≤ overallProgressPercent
          (applyOps twoChapterPlan [.complete 2 "b" 1, .replan 1]) :=
  ⟨c5_replan_frame_progress_monotone.1 twoChapterPlanDone1 3,
    c5_replan_frame_progress_monotone.2 twoChapterPlan [.complete 2 "b" 1, .replan 1]⟩

/-! ## C10: progressPercent has no empty-list guard -/

/-- C10: for a chapter with a non-empty objectives list the client's
`progressPercent` equals the completed fraction times 100, but for a chapter
with zero objectives (hence zero completed ones) the division is `0/0` and
the result is `NaN` — not 0 and not 100. -/
theorem c10_progressPercent_empty_nan (c : ClientChapter) (n : Nat) :
    (c.learning_objectives ≠ [] →
      progressPercent (some c) n
        = .num ((n : ℚ) / (c.learning_objectives.length : ℚ) * 100)) ∧
    (c.learning_objectives = [] → progressPercent (some c) 0 = .nan) ∧
    (JsNumber.nan ≠ .num 0 ∧ JsNumber.nan ≠ .num 100) := by
  refine ⟨?_, ?_, by decide, by decide⟩
  · intro hne
    have hlen : (c.learning_objectives.length : ℚ) ≠ 0 := by
      simpa [List.length_eq_zero] using hne
    simp [progressPercent, jsDiv, jsMul, hlen]
  · intro hnil
    simp [progressPercent, jsDiv, jsMul, hnil]

/-- C10 witness: one of two objectives completed reads 50; a zero-objective
chapter reads `NaN`, which differs from 0 and from 100. -/
theorem c10_progressPercent_empty_nan_witness :
    progressPercent (some ⟨1, "t", "", ["a", "b"]⟩) 1 = .num 50 ∧
    progressPercent (some ⟨2, "e", "", []⟩) 0 = .nan ∧
    (JsNumber.nan ≠ .num 0 ∧ JsNumber.nan ≠ .num 100) :=
  ⟨((c10_progressPercent_empty_nan ⟨1, "t", "", ["a", "b"]⟩ 1).1 (by decide)).trans
      (by decide),
    (c10_progressPercent_empty_nan ⟨2, "e", "", []⟩ 0).2.1 rfl,
    (c10_progressPercent_empty_nan ⟨2, "e", "", []⟩ 0).2.2⟩

end AgentEd
